import Mathlib

/-!
Verification development for the core of css-explore (src/css_explore/main.py).

The core is the typed AST (Charset, Property, Rule, KeyFrame, KeyFrames,
MediaQuery), its renderers (the to_text methods plus the indent helper), and
the untyped-tree builder (the to_xxx converters, _check_keys, generic_to_node,
and the dispatch table TO_NODE_TYPES), together with the format_css entry
point from the parsed stylesheet onward.  The external CSS parser subprocess
is a collaborator outside the core: format_css is modelled from the point
where the parsed untyped rule records are in hand.

Python strings are modelled as Lean String (logically a list of characters);
Python dicts from the parser are modelled as ordered association lists over a
JSON-like value type; Python exceptions (AssertionError from the schema
asserts, KeyError from dict lookups) are modelled as an Except error type.
Literal brace characters inside string literals are written with the \x7b and
\x7d escapes.
-/

set_option linter.unusedVariables false

namespace CssExplore

/-! ## String model -/

/-- Python text.splitlines() restricted to the newline separator, which is the
only line break the renderer ever produces: no piece contains a newline, the
empty string yields no lines, and a trailing newline does not produce a final
empty line. -/
def splitNl : List Char → List (List Char)
  | [] => []
  | c :: rest =>
    if c = '\n' then [] :: splitNl rest
    else
      match splitNl rest with
      | [] => [[c]]
      | l :: ls => (c :: l) :: ls

/-- Python sep.join for the newline separator, used by indent. -/
def joinNl : List (List Char) → List Char
  | [] => []
  | [l] => l
  | l :: l2 :: ls => l ++ '\n' :: joinNl (l2 :: ls)

/-- indent from main.py lines 28-30: split the text into lines, prefix each
line with four spaces, rejoin with newlines and append a final newline. -/
def indent (text : String) : String :=
  ⟨joinNl ((splitNl text.data).map (fun line => "    ".data ++ line)) ++ ['\n']⟩

/-- Python str.join with the empty separator, as used by the renderers. -/
def strJoin : List String → String
  | [] => ""
  | s :: rest => s ++ strJoin rest

/-- The ASCII whitespace characters stripped by Python str.rstrip(). -/
def pythonSpace (c : Char) : Bool :=
  c = ' ' || c = '\t' || c = '\n' || c = '\r' || c = '\x0b' || c = '\x0c'

/-- Python str.rstrip() with no argument: drop trailing whitespace.  In the
source this is applied by main, not by format_css. -/
def rstrip (s : String) : String :=
  ⟨(s.data.reverse.dropWhile pythonSpace).reverse⟩

/-! ## Typed AST (the namedtuple classes of main.py) -/

/-- The two keyword options threaded through every to_text call. -/
structure Config where
  ignore_charset : Bool
  ignore_empty_rules : Bool

/-- Charset node: main.py lines 33-41. -/
structure Charset where
  charset : String

/-- Property node (a declaration): main.py lines 96-100. -/
structure Property where
  name : String
  value : String

/-- Rule node; selectors is the already comma-joined selector string:
main.py lines 81-93. -/
structure Rule where
  selectors : String
  properties : List Property

/-- KeyFrame node; values is the already comma-joined value string:
main.py lines 44-53. -/
structure KeyFrame where
  values : String
  properties : List Property

/-- KeyFrames node: main.py lines 56-68. -/
structure KeyFrames where
  vendor : String
  name : String
  keyframes : List KeyFrame

/-- A top-level (or media-nested) node.  MediaQuery (main.py lines 71-78) is
inlined as the media constructor because its rules list holds nodes of any
kind. -/
inductive Node where
  | charset (c : Charset)
  | keyframes (k : KeyFrames)
  | media (media : String) (rules : List Node)
  | rule (r : Rule)

/-! ## Renderers (the to_text methods) -/

/-- Property.to_text: the four-space indent is baked into the format string;
the kwargs are ignored. -/
def Property.to_text (self : Property) (cfg : Config) : String :=
  "    " ++ self.name ++ ": " ++ self.value ++ ";\n"

/-- Charset.to_text: empty when ignore_charset is set. -/
def Charset.to_text (self : Charset) (cfg : Config) : String :=
  if cfg.ignore_charset then ""
  else "@charset " ++ self.charset ++ ";\n"

/-- KeyFrame.to_text: always renders, no emptiness check. -/
def KeyFrame.to_text (self : KeyFrame) (cfg : Config) : String :=
  self.values ++ " \x7b\n" ++
    strJoin (self.properties.map (fun p => p.to_text cfg)) ++ "\x7d\n"

/-- KeyFrames.to_text: the joined frames are indented one level. -/
def KeyFrames.to_text (self : KeyFrames) (cfg : Config) : String :=
  "@" ++ self.vendor ++ "keyframes " ++ self.name ++ " \x7b\n" ++
    indent (strJoin (self.keyframes.map (fun k => k.to_text cfg))) ++ "\x7d\n"

/-- Rule.to_text: drops the whole rule when ignore_empty_rules is set and the
property sequence is empty. -/
def Rule.to_text (self : Rule) (cfg : Config) : String :=
  if cfg.ignore_empty_rules && self.properties.isEmpty then ""
  else
    self.selectors ++ " \x7b\n" ++
      strJoin (self.properties.map (fun p => p.to_text cfg)) ++ "\x7d\n"

mutual

/-- Render one node; MediaQuery.to_text indents the joined child renderings. -/
def Node.to_text (n : Node) (cfg : Config) : String :=
  match n with
  | .charset c => c.to_text cfg
  | .keyframes k => k.to_text cfg
  | .media m rules =>
      "@media " ++ m ++ " \x7b\n" ++ indent (renderNodes rules cfg) ++ "\x7d\n"
  | .rule r => r.to_text cfg

/-- The concatenation of the renderings of a node sequence, in order. -/
def renderNodes (ns : List Node) (cfg : Config) : String :=
  match ns with
  | [] => ""
  | n :: rest => n.to_text cfg ++ renderNodes rest cfg

end

/-! ## Untyped parse tree (the JSON records handed over by the parser) -/

/-- A value in the untyped parse tree. -/
inductive JVal where
  | s (v : String)
  | num (n : Int)
  | arr (vs : List JVal)
  | obj (fields : List (String × JVal))

/-- An untyped node record: a dict, modelled as an ordered association list
with the first binding of a key authoritative. -/
abbrev Record := List (String × JVal)

/-- The failures the builder can raise.  assertKeys and assertDeclType model
the two AssertionErrors (the schema-key assert of _check_keys and the
declaration-type assert of to_property); keyError models a KeyError raised by
a dict field access; unknownNodeType models the KeyError raised by the
TO_NODE_TYPES dispatch lookup; shapeError models the failures Python would
reach only with a structurally foreign value in a field (the model rejects
them at extraction). -/
inductive Err where
  | assertKeys (offending allowed : List String)
  | assertDeclType (found : JVal)
  | keyError (key : String)
  | unknownNodeType (found : JVal)
  | shapeError (key : String)

/-- Dict lookup, first binding wins. -/
def getKey (d : Record) (k : String) : Option JVal :=
  match d with
  | [] => none
  | (k2, v) :: rest => if k2 = k then some v else getKey rest k

/-- The key set of a record (as the list of its keys). -/
def keysOf (d : Record) : List String :=
  d.map (fun p => p.1)

/-- The subset test set(d) <= set(keys + (position, type)) of _check_keys,
with lists standing for the Python sets. -/
def subsetKeys (d : Record) (keys : List String) : Bool :=
  (keysOf d).all (fun k => (keys ++ ["position", "type"]).contains k)

/-- The _check_keys assert of main.py lines 123-126: every key of the record
must be among the declared keys plus position and type; on violation the
assertion carries the offending key set and the allowed key set. -/
def _check_keys (d : Record) (keys : List String) : Except Err Unit :=
  if subsetKeys d keys then .ok ()
  else .error (.assertKeys (keysOf d) (keys ++ ["position", "type"]))

/-- Field access d[k] expecting a string value. -/
def getStr (d : Record) (k : String) : Except Err String :=
  match getKey d k with
  | none => .error (.keyError k)
  | some (JVal.s v) => .ok v
  | some _ => .error (.shapeError k)

/-- The d.get(vendor, ...) access of to_keyframes: an absent vendor defaults
to the empty string. -/
def getVendor (d : Record) : Except Err String :=
  match getKey d "vendor" with
  | none => .ok ""
  | some (JVal.s v) => .ok v
  | some _ => .error (.shapeError "vendor")

/-- Extract a list of strings (the selectors and values sequences). -/
def asStrList (k : String) : List JVal → Except Err (List String)
  | [] => .ok []
  | JVal.s v :: rest =>
    match asStrList k rest with
    | .ok vs => .ok (v :: vs)
    | .error e => .error e
  | _ :: _ => .error (.shapeError k)

/-- to_property, main.py lines 129-132: first the declaration-type assert
(whose message carries the offending type value), then the key check, then
the property and value field accesses. -/
def to_property (d : Record) : Except Err Property :=
  match getKey d "type" with
  | none => .error (.keyError "type")
  | some t =>
    match t with
    | JVal.s tv =>
      if tv = "declaration" then
        match _check_keys d ["property", "value"] with
        | .error e => .error e
        | .ok _ =>
          match getStr d "property" with
          | .error e => .error e
          | .ok p =>
            match getStr d "value" with
            | .error e => .error e
            | .ok v => .ok ⟨p, v⟩
      else .error (.assertDeclType t)
    | _ => .error (.assertDeclType t)

/-- Convert a declarations sequence elementwise, in order. -/
def to_property_list : List JVal → Except Err (List Property)
  | [] => .ok []
  | JVal.obj fields :: rest =>
    match to_property fields with
    | .error e => .error e
    | .ok p =>
      match to_property_list rest with
      | .error e => .error e
      | .ok ps => .ok (p :: ps)
  | _ :: _ => .error (.shapeError "declarations")

/-- to_charset, main.py lines 135-137: key check, then the charset field. -/
def to_charset (d : Record) : Except Err Charset :=
  match _check_keys d ["charset"] with
  | .error e => .error e
  | .ok _ =>
    match getStr d "charset" with
    | .error e => .error e
    | .ok c => .ok ⟨c⟩

/-- to_keyframe, main.py lines 140-149: key check, then the declarations are
converted, then the values are comma-joined. -/
def to_keyframe (d : Record) : Except Err KeyFrame :=
  match _check_keys d ["declarations", "values"] with
  | .error e => .error e
  | .ok _ =>
    match getKey d "declarations" with
    | none => .error (.keyError "declarations")
    | some (JVal.arr ds) =>
      match to_property_list ds with
      | .error e => .error e
      | .ok props =>
        match getKey d "values" with
        | none => .error (.keyError "values")
        | some (JVal.arr vs) =>
          match asStrList "values" vs with
          | .error e => .error e
          | .ok svs => .ok ⟨String.intercalate ", " svs, props⟩
        | some _ => .error (.shapeError "values")
    | some _ => .error (.shapeError "declarations")

/-- Convert a keyframes sequence elementwise, in order. -/
def to_keyframe_list : List JVal → Except Err (List KeyFrame)
  | [] => .ok []
  | JVal.obj fields :: rest =>
    match to_keyframe fields with
    | .error e => .error e
    | .ok k =>
      match to_keyframe_list rest with
      | .error e => .error e
      | .ok ks => .ok (k :: ks)
  | _ :: _ => .error (.shapeError "keyframes")

/-- to_keyframes, main.py lines 152-162: key check, then the keyframes are
converted, then vendor (defaulting to the empty string) and name are read. -/
def to_keyframes (d : Record) : Except Err KeyFrames :=
  match _check_keys d ["vendor", "name", "keyframes"] with
  | .error e => .error e
  | .ok _ =>
    match getKey d "keyframes" with
    | none => .error (.keyError "keyframes")
    | some (JVal.arr ks) =>
      match to_keyframe_list ks with
      | .error e => .error e
      | .ok kfs =>
        match getVendor d with
        | .error e => .error e
        | .ok v =>
          match getStr d "name" with
          | .error e => .error e
          | .ok nm => .ok ⟨v, nm, kfs⟩
    | some _ => .error (.shapeError "keyframes")

/-- to_rule, main.py lines 173-180: key check, then the selectors are
comma-joined, then the declarations are converted. -/
def to_rule (d : Record) : Except Err Rule :=
  match _check_keys d ["selectors", "declarations"] with
  | .error e => .error e
  | .ok _ =>
    match getKey d "selectors" with
    | none => .error (.keyError "selectors")
    | some (JVal.arr ss) =>
      match asStrList "selectors" ss with
      | .error e => .error e
      | .ok sels =>
        match getKey d "declarations" with
        | none => .error (.keyError "declarations")
        | some (JVal.arr ds) =>
          match to_property_list ds with
          | .error e => .error e
          | .ok props => .ok ⟨String.intercalate ", " sels, props⟩
        | some _ => .error (.shapeError "declarations")
    | some _ => .error (.shapeError "selectors")

/-- Support lemma for the termination of the builder recursion: a value found
in a record is structurally smaller than the record. -/
theorem sizeOf_getKey {d : Record} {k : String} {v : JVal}
    (h : getKey d k = some v) : sizeOf v < sizeOf d := by
  induction d with
  | nil => simp [getKey] at h
  | cons p rest ih =>
    obtain ⟨k2, v2⟩ := p
    simp only [getKey] at h
    split at h
    · cases h
      simp
      omega
    · have := ih h
      simp
      omega

mutual

/-- generic_to_node, main.py lines 191-192, with the TO_NODE_TYPES dispatch
table of lines 183-188 inlined: an unregistered type discriminator raises the
dispatch KeyError, modelled as unknownNodeType. -/
def generic_to_node (d : Record) : Except Err Node :=
  match getKey d "type" with
  | none => .error (.keyError "type")
  | some t =>
    match t with
    | JVal.s tv =>
      if tv = "charset" then
        match to_charset d with
        | .error e => .error e
        | .ok c => .ok (Node.charset c)
      else if tv = "keyframes" then
        match to_keyframes d with
        | .error e => .error e
        | .ok k => .ok (Node.keyframes k)
      else if tv = "media" then to_media_query d
      else if tv = "rule" then
        match to_rule d with
        | .error e => .error e
        | .ok r => .ok (Node.rule r)
      else .error (.unknownNodeType t)
    | _ => .error (.unknownNodeType t)
termination_by (sizeOf d, 1)
decreasing_by
  apply Prod.Lex.right
  omega

/-- to_media_query, main.py lines 165-170: key check, then the nested rules
are converted through the full generic dispatch, then media is read. -/
def to_media_query (d : Record) : Except Err Node :=
  match _check_keys d ["media", "rules"] with
  | .error e => .error e
  | .ok _ =>
    match hr : getKey d "rules" with
    | none => .error (.keyError "rules")
    | some (JVal.arr rs) =>
      match to_node_list rs with
      | .error e => .error e
      | .ok nodes =>
        match getStr d "media" with
        | .error e => .error e
        | .ok m => .ok (Node.media m nodes)
    | some _ => .error (.shapeError "rules")
termination_by (sizeOf d, 0)
decreasing_by
  apply Prod.Lex.left
  have := sizeOf_getKey hr
  simp at this
  omega

/-- Convert a nested rules sequence elementwise, in order, through the
generic dispatch. -/
def to_node_list (rs : List JVal) : Except Err (List Node) :=
  match rs with
  | [] => .ok []
  | JVal.obj fields :: rest =>
    match generic_to_node fields with
    | .error e => .error e
    | .ok n =>
      match to_node_list rest with
      | .error e => .error e
      | .ok ns => .ok (n :: ns)
  | _ :: _ => .error (.shapeError "rules")
termination_by (sizeOf rs, 2)
decreasing_by
  all_goals
    apply Prod.Lex.left
    simp
    try omega

end

/-- The top-level tuple(generic_to_node(rule_dict) for rule_dict in rules) of
format_css: convert each top-level record in order, aborting on the first
failure. -/
def build_nodes : List Record → Except Err (List Node)
  | [] => .ok []
  | d :: ds =>
    match generic_to_node d with
    | .error e => .error e
    | .ok n =>
      match build_nodes ds with
      | .error e => .error e
      | .ok ns => .ok (n :: ns)

/-- format_css, main.py lines 195-228, from the parsed untyped stylesheet
rules onward (the parser subprocess is the external collaborator): build the
typed nodes and return the concatenation of their renderings.  No trailing
whitespace is stripped here. -/
def format_css (rules : List Record) (cfg : Config) : Except Err String :=
  match build_nodes rules with
  | .error e => .error e
  | .ok ns => .ok (strJoin (ns.map (fun n => n.to_text cfg)))

/-- The text printed by main, main.py lines 231-236: format_css followed by a
single rstrip of the combined output. -/
def main_output (rules : List Record) (cfg : Config) : Except Err String :=
  match format_css rules cfg with
  | .error e => .error e
  | .ok s => .ok (rstrip s)

/-! ## Predicates used by the claims -/

/-- The two assertion failures are what the spec calls a SchemaViolation. -/
def isSchemaErr : Err → Bool
  | .assertKeys _ _ => true
  | .assertDeclType _ => true
  | _ => false

/-- A computation failed with a SchemaViolation. -/
def failsSchema {α : Type} (r : Except Err α) : Bool :=
  match r with
  | .error e => isSchemaErr e
  | .ok _ => false

/-- The key sets carried by a failure, when it carries any. -/
def carriedKeySets : Err → Option (List String × List String)
  | .assertKeys off alw => some (off, alw)
  | _ => none


/-! ## Concrete records used by the scenario claims -/

/-- The keyframes scenario record of the spec (vendor absent). -/
def spinRec : Record :=
  [("type", JVal.s "keyframes"), ("name", JVal.s "spin"),
   ("keyframes", JVal.arr
     [JVal.obj [("values", JVal.arr [JVal.s "0%"]),
                ("declarations", JVal.arr [])],
      JVal.obj [("values", JVal.arr [JVal.s "100%"]),
                ("declarations", JVal.arr
                  [JVal.obj [("type", JVal.s "declaration"),
                             ("property", JVal.s "transform"),
                             ("value", JVal.s "rotate(360deg)")]])]])]

/-- The typed node the keyframes scenario builds to. -/
def spinNode : Node :=
  Node.keyframes ⟨"", "spin",
    [⟨"0%", []⟩, ⟨"100%", [⟨"transform", "rotate(360deg)"⟩]⟩]⟩

/-- A single simple rule record, a \x7b color: red \x7d. -/
def c1Rec : Record :=
  [("type", JVal.s "rule"), ("selectors", JVal.arr [JVal.s "a"]),
   ("declarations", JVal.arr
     [JVal.obj [("type", JVal.s "declaration"),
                ("property", JVal.s "color"), ("value", JVal.s "red")]])]

/-! ## String toolkit -/

theorem str_ext {a b : String} (h : a.data = b.data) : a = b := by
  cases a; cases b; cases h; rfl

theorem strData_append (a b : String) : (a ++ b).data = a.data ++ b.data := by
  cases a; cases b; rfl

theorem data_empty : ("" : String).data = [] := rfl

theorem strAppend_assoc (a b c : String) : a ++ b ++ c = a ++ (b ++ c) := by
  apply str_ext
  simp [strData_append]

theorem strEmpty_append (a : String) : "" ++ a = a := by
  apply str_ext
  simp [strData_append, data_empty]

theorem strAppend_empty (a : String) : a ++ "" = a := by
  apply str_ext
  simp [strData_append, data_empty]

theorem str_append_ne_empty (a b : String) (hb : b ≠ "") : a ++ b ≠ "" := by
  intro h
  apply hb
  have hd := congrArg String.data h
  rw [strData_append, data_empty] at hd
  exact str_ext ((List.append_eq_nil.mp hd).2.trans data_empty.symm)

/-! ## splitNl and joinNl lemmas -/

theorem splitNl_cons_ne_nil (c : Char) (rest : List Char) : splitNl (c :: rest) ≠ [] := by
  simp only [splitNl]
  split
  · simp
  · split <;> simp

theorem splitNl_ne_nil {cs : List Char} (h : cs ≠ []) : splitNl cs ≠ [] := by
  cases cs with
  | nil => exact absurd rfl h
  | cons c rest => exact splitNl_cons_ne_nil c rest

theorem splitNl_no_nl : ∀ (cs : List Char), ∀ l ∈ splitNl cs, '\n' ∉ l := by
  intro cs
  induction cs with
  | nil => simp [splitNl]
  | cons c rest ih =>
    intro l hl
    simp only [splitNl] at hl
    split at hl
    · rcases List.mem_cons.mp hl with h | h
      · simp [h]
      · exact ih l h
    · rename_i hc
      split at hl
      · rename_i hrest
        simp only [List.mem_singleton] at hl
        subst hl
        intro hmem
        exact hc (List.mem_singleton.mp hmem).symm
      · rename_i l0 ls hrest
        rcases List.mem_cons.mp hl with h | h
        · subst h
          intro hmem
          rcases List.mem_cons.mp hmem with h1 | h1
          · exact hc h1.symm
          · exact ih l0 (by rw [hrest]; exact List.mem_cons_self l0 ls) h1
        · exact ih l (by rw [hrest]; exact List.mem_cons_of_mem l0 h)


theorem splitNl_append_nl (l : List Char) (rest : List Char) (h : '\n' ∉ l) :
    splitNl (l ++ '\n' :: rest) = l :: splitNl rest := by
  induction l with
  | nil =>
    simp [splitNl]
  | cons c l ih =>
    have hc : ¬ c = '\n' := fun hcc => h (hcc ▸ List.mem_cons_self c l)
    have hl : '\n' ∉ l := fun hm => h (List.mem_cons_of_mem c hm)
    rw [List.cons_append]
    conv_lhs => rw [splitNl]
    rw [if_neg hc, ih hl]

theorem splitNl_joinNl : ∀ (ls : List (List Char)), ls ≠ [] →
    (∀ l ∈ ls, '\n' ∉ l) → splitNl (joinNl ls ++ ['\n']) = ls := by
  intro ls
  induction ls with
  | nil => intro h; exact absurd rfl h
  | cons l ls ih =>
    intro _ hmem
    cases ls with
    | nil =>
      simp only [joinNl]
      rw [splitNl_append_nl l [] (hmem l (List.mem_cons_self l []))]
      rfl
    | cons l2 ls2 =>
      simp only [joinNl]
      rw [List.append_assoc, List.cons_append]
      rw [splitNl_append_nl l _ (hmem l (List.mem_cons_self l _))]
      have := ih (by simp) (fun x hx => hmem x (List.mem_cons_of_mem l hx))
      simp only [joinNl] at this
      rw [this]

theorem getLast?_ne_of_not_mem {l : List Char} (h : '\n' ∉ l) :
    l.getLast? ≠ some '\n' := by
  intro hl
  rcases List.getLast?_eq_some_iff.mp hl with ⟨ys, hys⟩
  exact h (hys ▸ List.mem_append_right ys (List.mem_singleton.mpr rfl))

theorem joinNl_getLast : ∀ (ls : List (List Char)), ls ≠ [] →
    (∀ l ∈ ls, l ≠ [] ∧ '\n' ∉ l) →
    joinNl ls ≠ [] ∧ (joinNl ls).getLast? ≠ some '\n' := by
  intro ls
  induction ls with
  | nil => intro h; exact absurd rfl h
  | cons l ls ih =>
    intro _ hmem
    cases ls with
    | nil =>
      obtain ⟨hne, hnl⟩ := hmem l (List.mem_cons_self l [])
      exact ⟨hne, getLast?_ne_of_not_mem hnl⟩
    | cons l2 ls2 =>
      obtain ⟨hJne, hJlast⟩ :=
        ih (by simp) (fun x hx => hmem x (List.mem_cons_of_mem l hx))
      constructor
      · simp [joinNl]
      · simp only [joinNl]
        rw [List.getLast?_append]
        rcases hy : (joinNl (l2 :: ls2)).getLast? with _ | y
        · exact absurd (List.getLast?_eq_none_iff.mp hy) hJne
        · have hcons : ('\n' :: joinNl (l2 :: ls2)).getLast? = some y := by
            cases hJ : joinNl (l2 :: ls2) with
            | nil => exact absurd hJ hJne
            | cons a as =>
              rw [hJ] at hy
              rw [List.getLast?_cons_cons]
              exact hy
          rw [hcons]
          intro hor
          apply hJlast
          rw [hy]
          simpa using hor

theorem splitNl_indent (t : String) (ht : t.data ≠ []) :
    splitNl (indent t).data =
      (splitNl t.data).map (fun line => "    ".data ++ line) := by
  have hne : (splitNl t.data).map (fun line => "    ".data ++ line) ≠ [] := by
    intro h
    exact splitNl_ne_nil ht (List.map_eq_nil_iff.mp h)
  have hnl : ∀ l ∈ (splitNl t.data).map (fun line => "    ".data ++ line),
      '\n' ∉ l := by
    intro l hl
    rcases List.mem_map.mp hl with ⟨l0, hl0, rfl⟩
    intro hm
    rcases List.mem_append.mp hm with h | h
    · exact absurd h (by decide)
    · exact splitNl_no_nl t.data l0 hl0 h
  have : (indent t).data =
      joinNl ((splitNl t.data).map (fun line => "    ".data ++ line)) ++ ['\n'] := rfl
  rw [this, splitNl_joinNl _ hne hnl]

/-- C2: for every text ending in a newline the indent output ends in exactly
one trailing newline, and for every non-empty text indenting preserves the
line count exactly (the indented lines are the original lines, each with the
four-space prefix). -/
theorem css_C2 (t : String) :
    (t.data.getLast? = some '\n' →
      ∃ pre, (indent t).data = pre ++ ['\n'] ∧ pre ≠ [] ∧
        pre.getLast? ≠ some '\n')
    ∧ (t.data ≠ [] →
        (splitNl (indent t).data).length = (splitNl t.data).length) := by
  constructor
  · intro ht
    have htne : t.data ≠ [] := by
      intro h
      rw [h] at ht
      exact Option.noConfusion ht
    refine ⟨joinNl ((splitNl t.data).map (fun line => "    ".data ++ line)),
      rfl, ?_⟩
    have hmem : ∀ l ∈ (splitNl t.data).map (fun line => "    ".data ++ line),
        l ≠ [] ∧ '\n' ∉ l := by
      intro l hl
      rcases List.mem_map.mp hl with ⟨l0, hl0, rfl⟩
      constructor
      · simp
      · intro hm
        rcases List.mem_append.mp hm with h | h
        · exact absurd h (by decide)
        · exact splitNl_no_nl t.data l0 hl0 h
    have hne : (splitNl t.data).map (fun line => "    ".data ++ line) ≠ [] := by
      intro h
      exact splitNl_ne_nil htne (List.map_eq_nil_iff.mp h)
    exact joinNl_getLast _ hne hmem
  · intro ht
    rw [splitNl_indent t ht, List.length_map]

/-- Concatenation lemma for strJoin, the order-preservation backbone. -/
theorem strJoin_append (xs ys : List String) :
    strJoin (xs ++ ys) = strJoin xs ++ strJoin ys := by
  induction xs with
  | nil => simp only [List.nil_append, strJoin, strEmpty_append]
  | cons x xs ih =>
    simp only [List.cons_append, strJoin]
    rw [strAppend_assoc]
    exact congrArg (fun s => x ++ s) ih

/-- Extracting a list of string values succeeds elementwise in order. -/
theorem asStrList_map (k : String) (ss : List String) :
    asStrList k (ss.map JVal.s) = .ok ss := by
  induction ss with
  | nil => rfl
  | cons v vs ih => simp only [List.map_cons, asStrList, ih]

/-- A field access failure is a lookup or shape failure, never an assertion. -/
theorem getStr_err (d : Record) (k : String) (e : Err) (h : getStr d k = .error e) :
    e = .keyError k ∨ e = .shapeError k := by
  rw [getStr] at h
  cases hg : getKey d k with
  | none =>
    rw [hg] at h
    injection h with h2
    exact Or.inl h2.symm
  | some v =>
    rw [hg] at h
    cases v with
    | s vv => exact Except.noConfusion h
    | num n => injection h with h2; exact Or.inr h2.symm
    | arr a => injection h with h2; exact Or.inr h2.symm
    | obj o => injection h with h2; exact Or.inr h2.symm

/-- C2 witness: the trailing-newline and line-count facts at the text "a" plus
a newline. -/
theorem css_C2_witness :
    ("a\n".data.getLast? = some '\n')
    ∧ ("a\n".data ≠ [])
    ∧ (∃ pre, (indent "a\n").data = pre ++ ['\n'] ∧ pre ≠ [] ∧
        pre.getLast? ≠ some '\n')
    ∧ (splitNl (indent "a\n").data).length = (splitNl "a\n".data).length :=
  ⟨by decide, by decide, (css_C2 "a\n").1 (by decide), (css_C2 "a\n").2 (by decide)⟩

/-- C7: a Charset node renders to the empty string under ignore_charset and
to the at-charset statement verbatim otherwise. -/
theorem css_C7 :
    (∀ (c : Charset) (ier : Bool), Charset.to_text c ⟨true, ier⟩ = "")
    ∧ (∀ (c : Charset) (ier : Bool),
        Charset.to_text c ⟨false, ier⟩ = "@charset " ++ c.charset ++ ";\n") :=
  ⟨fun c ier => rfl, fun c ier => rfl⟩

/-- C10: indenting the empty string yields a single newline, so an empty
MediaQuery and an empty KeyFrames render with one blank line between the
braces. -/
theorem css_C10 :
    indent "" = "\n"
    ∧ (∀ (m : String) (cfg : Config),
        Node.to_text (Node.media m []) cfg = "@media " ++ m ++ " \x7b\n\n\x7d\n")
    ∧ (∀ (v nm : String) (cfg : Config),
        KeyFrames.to_text ⟨v, nm, []⟩ cfg =
          "@" ++ v ++ "keyframes " ++ nm ++ " \x7b\n\n\x7d\n") := by
  refine ⟨rfl, ?_, ?_⟩
  · intro m cfg
    show "@media " ++ m ++ " \x7b\n" ++ "\n" ++ "\x7d\n" =
      "@media " ++ m ++ " \x7b\n\n\x7d\n"
    rw [strAppend_assoc, strAppend_assoc]
    rfl
  · intro v nm cfg
    show "@" ++ v ++ "keyframes " ++ nm ++ " \x7b\n" ++ "\n" ++ "\x7d\n" =
      "@" ++ v ++ "keyframes " ++ nm ++ " \x7b\n\n\x7d\n"
    rw [strAppend_assoc, strAppend_assoc]
    rfl

/-- C4: the keyframes scenario builds with vendor defaulting to the empty
string and renders to the expected text under any configuration. -/
theorem css_C4 :
    generic_to_node spinRec = .ok spinNode
    ∧ ∀ cfg : Config, Node.to_text spinNode cfg =
        "@keyframes spin \x7b\n    0% \x7b\n    \x7d\n    100% \x7b\n        transform: rotate(360deg);\n    \x7d\n\x7d\n" := by
  constructor
  · rw [generic_to_node]
    rfl
  · intro cfg
    rfl

/-- C3: with ignore_empty_rules set, rendering a node yields the empty string
exactly for the rules with no properties; KeyFrame and KeyFrames blocks never
render empty; without the flag an empty rule renders as its block form. -/
theorem css_C3 :
    (∀ n : Node, Node.to_text n ⟨false, true⟩ = "" ↔ ∃ sel, n = Node.rule ⟨sel, []⟩)
    ∧ (∀ (k : KeyFrame) (cfg : Config), KeyFrame.to_text k cfg ≠ "")
    ∧ (∀ (ks : KeyFrames) (cfg : Config), KeyFrames.to_text ks cfg ≠ "")
    ∧ (∀ (sel : String) (ic : Bool),
        Rule.to_text ⟨sel, []⟩ ⟨ic, false⟩ = sel ++ " \x7b\n\x7d\n"
        ∧ Rule.to_text ⟨sel, []⟩ ⟨ic, false⟩ ≠ "") := by
  refine ⟨?_, ?_, ?_, ?_⟩
  · intro n
    cases n with
    | charset c =>
      constructor
      · intro h
        exact absurd h (str_append_ne_empty _ ";\n" (by decide))
      · rintro ⟨sel, h⟩
        exact Node.noConfusion h
    | keyframes k =>
      constructor
      · intro h
        exact absurd h (str_append_ne_empty _ "\x7d\n" (by decide))
      · rintro ⟨sel, h⟩
        exact Node.noConfusion h
    | media m rules =>
      constructor
      · intro h
        exact absurd h (str_append_ne_empty _ "\x7d\n" (by decide))
      · rintro ⟨sel, h⟩
        exact Node.noConfusion h
    | rule r =>
      obtain ⟨sel, ps⟩ := r
      cases ps with
      | nil =>
        constructor
        · intro _
          exact ⟨sel, rfl⟩
        · intro _
          rfl
      | cons p ps =>
        constructor
        · intro h
          exact absurd h (str_append_ne_empty _ "\x7d\n" (by decide))
        · rintro ⟨sel2, h⟩
          simp at h
  · intro k cfg
    exact str_append_ne_empty _ "\x7d\n" (by decide)
  · intro ks cfg
    exact str_append_ne_empty _ "\x7d\n" (by decide)
  · intro sel ic
    have h1 : Rule.to_text ⟨sel, []⟩ ⟨ic, false⟩ =
        ((sel ++ " \x7b\n") ++ "") ++ "\x7d\n" := rfl
    constructor
    · rw [h1, strAppend_empty, strAppend_assoc]
      rfl
    · rw [h1]
      exact str_append_ne_empty _ "\x7d\n" (by decide)

/-- C3 witness: an empty rule vanishes under ignore_empty_rules while an
empty keyframe block still renders. -/
theorem css_C3_witness :
    Node.to_text (Node.rule ⟨"q", []⟩) ⟨false, true⟩ = ""
    ∧ KeyFrame.to_text ⟨"0%", []⟩ ⟨false, true⟩ ≠ "" :=
  ⟨(css_C3.1 (Node.rule ⟨"q", []⟩)).mpr ⟨"q", rfl⟩,
   css_C3.2.1 ⟨"0%", []⟩ ⟨false, true⟩⟩

/-- C1 counterexample: format_css does not strip trailing whitespace from the
combined output; the rendering of a single rule ends in a newline that
rstrip would remove. -/
theorem css_C1_counterexample :
    format_css [c1Rec] ⟨false, false⟩ = .ok "a \x7b\n    color: red;\n\x7d\n"
    ∧ rstrip "a \x7b\n    color: red;\n\x7d\n" = "a \x7b\n    color: red;\n\x7d"
    ∧ ("a \x7b\n    color: red;\n\x7d\n" : String) ≠ "a \x7b\n    color: red;\n\x7d" := by
  refine ⟨?_, rfl, by decide⟩
  rw [format_css, build_nodes, generic_to_node]
  rfl

/-- C1 amended: format_css returns the unstripped concatenation of the
renderings of the built top-level nodes in input order; the single rstrip is
applied afterwards by main. -/
theorem css_C1_amended :
    ∀ (rules : List Record) (cfg : Config) (ns : List Node),
      build_nodes rules = .ok ns →
      format_css rules cfg = .ok (strJoin (ns.map (fun n => n.to_text cfg)))
      ∧ main_output rules cfg =
          .ok (rstrip (strJoin (ns.map (fun n => n.to_text cfg)))) := by
  intro rules cfg ns h
  have h1 : format_css rules cfg =
      .ok (strJoin (ns.map (fun n => n.to_text cfg))) := by
    simp only [format_css, h]
  exact ⟨h1, by simp only [main_output, h1]⟩

/-- C1 witness: the amended statement at the single simple rule record. -/
theorem css_C1_witness :
    build_nodes [c1Rec] = .ok [Node.rule ⟨"a", [⟨"color", "red"⟩]⟩]
    ∧ format_css [c1Rec] ⟨false, false⟩ =
        .ok (strJoin ([Node.rule ⟨"a", [⟨"color", "red"⟩]⟩].map
          (fun n => n.to_text ⟨false, false⟩)))
    ∧ main_output [c1Rec] ⟨false, false⟩ =
        .ok (rstrip (strJoin ([Node.rule ⟨"a", [⟨"color", "red"⟩]⟩].map
          (fun n => n.to_text ⟨false, false⟩)))) := by
  have hb : build_nodes [c1Rec] = .ok [Node.rule ⟨"a", [⟨"color", "red"⟩]⟩] := by
    rw [build_nodes, generic_to_node]
    rfl
  exact ⟨hb, (css_C1_amended [c1Rec] ⟨false, false⟩ _ hb).1,
    (css_C1_amended [c1Rec] ⟨false, false⟩ _ hb).2⟩

/-- C9: a record whose keys pass the schema check but which lacks a required
field fails with a plain key lookup error on the field access, not with a
schema assertion (shown for the charset and rule converters). -/
theorem css_C9 :
    (∀ d : Record, subsetKeys d ["charset"] = true → getKey d "charset" = none →
      _check_keys d ["charset"] = .ok ()
      ∧ to_charset d = .error (.keyError "charset")
      ∧ isSchemaErr (.keyError "charset") = false)
    ∧ (∀ d : Record, subsetKeys d ["selectors", "declarations"] = true →
        getKey d "selectors" = none →
        to_rule d = .error (.keyError "selectors")) := by
  constructor
  · intro d h1 h2
    refine ⟨?_, ?_, rfl⟩
    · simp [_check_keys, h1]
    · simp [to_charset, _check_keys, h1, getStr, h2]
  · intro d h1 h2
    simp [to_rule, _check_keys, h1, h2]

/-- C9 witness: the bare charset and rule records. -/
theorem css_C9_witness :
    to_charset [("type", JVal.s "charset")] = .error (.keyError "charset")
    ∧ to_rule [("type", JVal.s "rule")] = .error (.keyError "selectors") :=
  ⟨(css_C9.1 [("type", JVal.s "charset")] (by decide) rfl).2.1,
   css_C9.2 [("type", JVal.s "rule")] (by decide) rfl⟩

/-- C6: an unregistered type discriminator makes the dispatch fail with the
unknown-node-type lookup error, and the whole stylesheet conversion aborts
with that error, producing no partial result. -/
theorem css_C6 :
    ∀ (d : Record) (tv : String),
      getKey d "type" = some (JVal.s tv) →
      tv ∉ (["charset", "keyframes", "media", "rule"] : List String) →
      generic_to_node d = .error (.unknownNodeType (JVal.s tv))
      ∧ (∀ (ds1 ds2 : List Record) (ns1 : List Node),
          build_nodes ds1 = .ok ns1 →
          build_nodes (ds1 ++ d :: ds2) = .error (.unknownNodeType (JVal.s tv))) := by
  intro d tv ht hmem
  have hne : tv ≠ "charset" ∧ tv ≠ "keyframes" ∧ tv ≠ "media" ∧ tv ≠ "rule" := by
    simpa using hmem
  have h1 : generic_to_node d = .error (.unknownNodeType (JVal.s tv)) := by
    rw [generic_to_node, ht]
    simp [hne.1, hne.2.1, hne.2.2.1, hne.2.2.2]
  refine ⟨h1, ?_⟩
  intro ds1 ds2 ns1 hb
  induction ds1 generalizing ns1 with
  | nil =>
    rw [List.nil_append, build_nodes, h1]
  | cons d0 ds ih =>
    rw [build_nodes] at hb
    rw [List.cons_append, build_nodes]
    cases hg : generic_to_node d0 with
    | error e =>
      rw [hg] at hb
      exact Except.noConfusion hb
    | ok n0 =>
      rw [hg] at hb
      cases hbs : build_nodes ds with
      | error e =>
        rw [hbs] at hb
        exact Except.noConfusion hb
      | ok ns0 =>
        rw [ih ns0 hbs]

/-- C6 witness: the unknown-type scenario record. -/
theorem css_C6_witness :
    generic_to_node [("type", JVal.s "unknown")] =
      .error (.unknownNodeType (JVal.s "unknown"))
    ∧ build_nodes [[("type", JVal.s "unknown")]] =
        .error (.unknownNodeType (JVal.s "unknown")) := by
  have h := css_C6 [("type", JVal.s "unknown")] "unknown" rfl (by decide)
  exact ⟨h.1, h.2 [] [] [] rfl⟩

/-- C8: rendering is an append homomorphism on node and property sequences
(so sequences render in exact order with no sorting or deduplication), the
builder converts the top-level sequence positionally, and a rule joins its
selector list in input order. -/
theorem css_C8 :
    (∀ (cfg : Config) (ns ms : List Node),
      strJoin ((ns ++ ms).map (fun n => n.to_text cfg)) =
        strJoin (ns.map (fun n => n.to_text cfg)) ++
          strJoin (ms.map (fun n => n.to_text cfg)))
    ∧ (∀ (cfg : Config) (ps qs : List Property),
        strJoin ((ps ++ qs).map (fun p => p.to_text cfg)) =
          strJoin (ps.map (fun p => p.to_text cfg)) ++
            strJoin (qs.map (fun p => p.to_text cfg)))
    ∧ (∀ (ds : List Record) (ns : List Node), build_nodes ds = .ok ns →
        ns.length = ds.length
        ∧ ∀ (i : Nat) (h1 : i < ds.length) (h2 : i < ns.length),
            generic_to_node (ds.get ⟨i, h1⟩) = .ok (ns.get ⟨i, h2⟩))
    ∧ (∀ (d : Record) (r : Rule) (ss : List String),
        to_rule d = .ok r →
        getKey d "selectors" = some (JVal.arr (ss.map JVal.s)) →
        r.selectors = String.intercalate ", " ss) := by
  refine ⟨?_, ?_, ?_, ?_⟩
  · intro cfg ns ms
    rw [List.map_append, strJoin_append]
  · intro cfg ps qs
    rw [List.map_append, strJoin_append]
  · intro ds
    induction ds with
    | nil =>
      intro ns h
      rw [build_nodes] at h
      injection h with h
      subst h
      exact ⟨rfl, fun i h1 h2 => absurd h1 (Nat.not_lt_zero i)⟩
    | cons d0 ds ih =>
      intro ns h
      rw [build_nodes] at h
      cases hg : generic_to_node d0 with
      | error e =>
        rw [hg] at h
        exact Except.noConfusion h
      | ok n0 =>
        rw [hg] at h
        simp only [] at h
        cases hbs : build_nodes ds with
        | error e =>
          rw [hbs] at h
          exact Except.noConfusion h
        | ok ns0 =>
          rw [hbs] at h
          simp only [] at h
          injection h with h
          subst h
          obtain ⟨hlen, hpos⟩ := ih ns0 hbs
          refine ⟨by simp [hlen], ?_⟩
          intro i h1 h2
          cases i with
          | zero => exact hg
          | succ j =>
            exact hpos j (Nat.lt_of_succ_lt_succ h1) (Nat.lt_of_succ_lt_succ h2)
  · intro d r ss h hs
    rw [to_rule] at h
    cases hck : _check_keys d ["selectors", "declarations"] with
    | error e =>
      rw [hck] at h
      exact Except.noConfusion h
    | ok u =>
      rw [hck, hs] at h
      simp only [] at h
      rw [asStrList_map] at h
      simp only [] at h
      cases hdd : getKey d "declarations" with
      | none =>
        rw [hdd] at h
        exact Except.noConfusion h
      | some vd =>
        rw [hdd] at h
        cases vd with
        | s v => exact Except.noConfusion h
        | num n => exact Except.noConfusion h
        | obj fs => exact Except.noConfusion h
        | arr dsx =>
          simp only [] at h
          cases hpl : to_property_list dsx with
          | error e =>
            rw [hpl] at h
            exact Except.noConfusion h
          | ok props =>
            rw [hpl] at h
            simp only [] at h
            injection h with h2
            rw [← h2]

/-- C8 witness: the spec round-trip rule record with two selectors. -/
theorem css_C8_witness :
    build_nodes [[("type", JVal.s "rule"),
        ("selectors", JVal.arr [JVal.s "a", JVal.s ".b"]),
        ("declarations", JVal.arr
          [JVal.obj [("type", JVal.s "declaration"),
                     ("property", JVal.s "color"), ("value", JVal.s "red")]])]] =
      .ok [Node.rule ⟨"a, .b", [⟨"color", "red"⟩]⟩]
    ∧ generic_to_node ([[("type", JVal.s "rule"),
        ("selectors", JVal.arr [JVal.s "a", JVal.s ".b"]),
        ("declarations", JVal.arr
          [JVal.obj [("type", JVal.s "declaration"),
                     ("property", JVal.s "color"), ("value", JVal.s "red")]])]].get
          ⟨0, Nat.one_pos⟩) =
        .ok ([Node.rule ⟨"a, .b", [⟨"color", "red"⟩]⟩].get ⟨0, Nat.one_pos⟩)
    ∧ (⟨"a, .b", [⟨"color", "red"⟩]⟩ : Rule).selectors =
        String.intercalate ", " ["a", ".b"] := by
  have hb : build_nodes [[("type", JVal.s "rule"),
      ("selectors", JVal.arr [JVal.s "a", JVal.s ".b"]),
      ("declarations", JVal.arr
        [JVal.obj [("type", JVal.s "declaration"),
                   ("property", JVal.s "color"), ("value", JVal.s "red")]])]] =
      .ok [Node.rule ⟨"a, .b", [⟨"color", "red"⟩]⟩] := by
    rw [build_nodes, generic_to_node]
    rfl
  have htr : to_rule [("type", JVal.s "rule"),
      ("selectors", JVal.arr [JVal.s "a", JVal.s ".b"]),
      ("declarations", JVal.arr
        [JVal.obj [("type", JVal.s "declaration"),
                   ("property", JVal.s "color"), ("value", JVal.s "red")]])] =
      .ok ⟨"a, .b", [⟨"color", "red"⟩]⟩ := rfl
  exact ⟨hb, (css_C8.2.2.1 _ _ hb).2 0 Nat.one_pos Nat.one_pos,
    css_C8.2.2.2 _ _ ["a", ".b"] htr rfl⟩

/-- C5 counterexample: a declaration record whose type field is "rule" fails
with the declaration-type assertion, which is a SchemaViolation but carries
the offending type value, not the key sets. -/
theorem css_C5_counterexample :
    to_property [("type", JVal.s "rule"), ("property", JVal.s "a"),
        ("value", JVal.s "b")] =
      .error (.assertDeclType (JVal.s "rule"))
    ∧ isSchemaErr (Err.assertDeclType (JVal.s "rule")) = true
    ∧ carriedKeySets (Err.assertDeclType (JVal.s "rule")) = none :=
  ⟨rfl, rfl, rfl⟩

/-- C5 amended: the key check fails exactly on key sets that are not subsets
of the allowed sets and then carries both key sets; the charset converter
fails with a SchemaViolation exactly when its keys violate the schema; the
declaration converter fails with a SchemaViolation exactly when its type
field is present and either differs from "declaration" or the keys violate
the schema, and the type-mismatch assertion carries the offending type
value. -/
theorem css_C5_amended :
    ∀ d : Record,
      (∀ ks : List String,
        failsSchema (_check_keys d ks) = true ↔ subsetKeys d ks = false)
      ∧ (∀ (ks off alw : List String),
          _check_keys d ks = .error (.assertKeys off alw) →
          off = keysOf d ∧ alw = ks ++ ["position", "type"])
      ∧ (failsSchema (to_charset d) = true ↔ subsetKeys d ["charset"] = false)
      ∧ (failsSchema (to_property d) = true ↔
          ∃ v, getKey d "type" = some v ∧
            (v ≠ JVal.s "declaration" ∨ subsetKeys d ["property", "value"] = false))
      ∧ (∀ v, to_property d = .error (.assertDeclType v) →
          getKey d "type" = some v) := by
  intro d
  refine ⟨?_, ?_, ?_, ?_, ?_⟩
  · intro ks
    cases hs : subsetKeys d ks with
    | true => simp [_check_keys, hs, failsSchema]
    | false => simp [_check_keys, hs, failsSchema, isSchemaErr]
  · intro ks off alw h
    rw [_check_keys] at h
    cases hs : subsetKeys d ks with
    | true =>
      rw [hs] at h
      exact Except.noConfusion h
    | false =>
      rw [hs] at h
      simp only [Bool.false_eq_true, if_false] at h
      injection h with h2
      injection h2 with ha hb
      exact ⟨ha.symm, hb.symm⟩
  · cases hs : subsetKeys d ["charset"] with
    | false => simp [to_charset, _check_keys, hs, failsSchema, isSchemaErr]
    | true =>
      have hok : _check_keys d ["charset"] = .ok () := by
        rw [_check_keys, hs]
        rfl
      have hff : failsSchema (to_charset d) = false := by
        rw [to_charset, hok]
        simp only []
        cases hg : getStr d "charset" with
        | error e =>
          rcases getStr_err d "charset" e hg with he | he <;> subst he <;> rfl
        | ok c => rfl
      simp [hff, hs]
  · cases ht : getKey d "type" with
    | none =>
      rw [to_property, ht]
      simp [failsSchema, isSchemaErr]
    | some t =>
      cases t with
      | num n =>
        rw [to_property, ht]
        simp only []
        constructor
        · intro _
          exact ⟨JVal.num n, rfl, Or.inl (fun hh => JVal.noConfusion hh)⟩
        · intro _
          rfl
      | arr a =>
        rw [to_property, ht]
        simp only []
        constructor
        · intro _
          exact ⟨JVal.arr a, rfl, Or.inl (fun hh => JVal.noConfusion hh)⟩
        · intro _
          rfl
      | obj o =>
        rw [to_property, ht]
        simp only []
        constructor
        · intro _
          exact ⟨JVal.obj o, rfl, Or.inl (fun hh => JVal.noConfusion hh)⟩
        · intro _
          rfl
      | s tv =>
        by_cases hdecl : tv = "declaration"
        · cases hs : subsetKeys d ["property", "value"] with
          | false =>
            constructor
            · intro _
              exact ⟨JVal.s tv, rfl, Or.inr rfl⟩
            · intro _
              rw [to_property, ht]
              simp only []
              rw [if_pos hdecl, _check_keys, hs]
              rfl
          | true =>
            have hok : _check_keys d ["property", "value"] = .ok () := by
              rw [_check_keys, hs]
              rfl
            have hff : failsSchema (to_property d) = false := by
              rw [to_property, ht]
              simp only []
              rw [if_pos hdecl, hok]
              simp only []
              cases hp : getStr d "property" with
              | error e =>
                rcases getStr_err d "property" e hp with he | he <;> subst he <;> rfl
              | ok p =>
                simp only []
                cases hv : getStr d "value" with
                | error e =>
                  rcases getStr_err d "value" e hv with he | he <;> subst he <;> rfl
                | ok vv => rfl
            rw [hff]
            constructor
            · intro hcontra
              exact Bool.noConfusion hcontra
            · rintro ⟨v, hv, hor⟩
              injection hv with hv
              subst hv
              rcases hor with hne | hfalse
              · exact absurd (congrArg JVal.s hdecl) hne
              · exact Bool.noConfusion hfalse
        · constructor
          · intro _
            refine ⟨JVal.s tv, rfl, Or.inl ?_⟩
            intro hh
            injection hh with hh2
            exact hdecl hh2
          · intro _
            rw [to_property, ht]
            simp only []
            rw [if_neg hdecl]
            rfl
  · intro v h
    cases ht : getKey d "type" with
    | none =>
      rw [to_property, ht] at h
      injection h with h2
      exact Err.noConfusion h2
    | some t =>
      rw [to_property, ht] at h
      cases t with
      | num n =>
        simp only [] at h
        injection h with h2
        injection h2 with h3
        rw [← h3]
      | arr a =>
        simp only [] at h
        injection h with h2
        injection h2 with h3
        rw [← h3]
      | obj o =>
        simp only [] at h
        injection h with h2
        injection h2 with h3
        rw [← h3]
      | s tv =>
        simp only [] at h
        by_cases hdecl : tv = "declaration"
        · rw [if_pos hdecl] at h
          exfalso
          cases hs : subsetKeys d ["property", "value"] with
          | false =>
            have hck : _check_keys d ["property", "value"] =
                .error (.assertKeys (keysOf d)
                  (["property", "value"] ++ ["position", "type"])) := by
              rw [_check_keys, hs]
              rfl
            rw [hck] at h
            injection h with h2
            exact Err.noConfusion h2
          | true =>
            have hok : _check_keys d ["property", "value"] = .ok () := by
              rw [_check_keys, hs]
              rfl
            rw [hok] at h
            simp only [] at h
            cases hp : getStr d "property" with
            | error e =>
              rw [hp] at h
              injection h with h2
              rcases getStr_err d "property" e hp with he | he <;> subst he <;>
                exact Err.noConfusion h2
            | ok p =>
              rw [hp] at h
              simp only [] at h
              cases hv : getStr d "value" with
              | error e =>
                rw [hv] at h
                injection h with h2
                rcases getStr_err d "value" e hv with he | he <;> subst he <;>
                  exact Err.noConfusion h2
              | ok vv =>
                rw [hv] at h
                exact Except.noConfusion h
        · rw [if_neg hdecl] at h
          injection h with h2
          injection h2 with h3
          rw [← h3]

/-- C5 witness: the amended statement exercised on a record with a foreign
key and on the key-set payload of the assertion. -/
theorem css_C5_witness :
    failsSchema (to_charset [("bogus", JVal.s "x")]) = true
    ∧ (["bogus"] = keysOf [("bogus", JVal.s "x")]
        ∧ ["charset", "position", "type"] = ["charset"] ++ ["position", "type"]) := by
  refine ⟨?_, ?_⟩
  · exact ((css_C5_amended [("bogus", JVal.s "x")]).2.2.1).mpr (by decide)
  · exact (css_C5_amended [("bogus", JVal.s "x")]).2.1 ["charset"]
      ["bogus"] ["charset", "position", "type"] rfl

end CssExplore
